import Mathlib

/-!
# redoubt: policy compilation and harvest dispatch (cmd/serve/serve.go)

Shallow embedding of `castPolicies`, `ReadJSON`, `WriteJSON` and
`harvestHandler.ServeHTTP`.

Conventions of the embedding.

* A Go slice is a `Slice`: either the nil slice or an allocated sequence, so
  that `[]Policy{}` (allocated, empty) and a `nil` result can be told apart.
* A Go multi-value return `(v, err)` is a Lean tuple whose last component is
  `Option GoError` (`none` is the nil error).
* A `for … range` loop with a `return` in its body is a recursive function on
  the list of remaining elements returning `Except`: `.error` carries what the
  executed `return` leaves behind, `.ok` the loop variables at normal exit.
* Interface values (`probes.Probe`, `producers.Producer`) are elements of
  abstract types; the method `Produce` and the constructors `probes.New` and
  `producers.New` are parameters, taken to be functions of their arguments.
* Every call of `Produce`, `probes.New` or `producers.New` is recorded, in
  program order, in a `calls` list that the Go program does not have.
-/

namespace Serve

/-! ## Go values -/

/-- Go `error` value, observed through the text of its `Error()` method. -/
structure GoError where
  Error : String
deriving DecidableEq, Repr

/-- Go slice value: the nil slice, or an allocated (possibly empty) sequence. -/
inductive Slice (α : Type) where
  | nil : Slice α
  | mk (elems : List α) : Slice α
deriving DecidableEq, Repr

/-- Elements of a slice, as seen by `range` and by `s...`. -/
def Slice.toList {α : Type} : Slice α → List α
  | .nil => []
  | .mk xs => xs

/-- Go builtin `append(s, xs...)`: with nothing to add the slice itself comes
back (nil stays nil), otherwise an allocated slice with the elements added. -/
def Slice.append {α : Type} : Slice α → List α → Slice α
  | s, [] => s
  | s, x :: xs => .mk (s.toList ++ x :: xs)

/-! ## Data model -/

/-- Compiled policy, `type Policy struct` of serve.go. -/
structure Policy (Pb Pd : Type) where
  Name : String
  Verify : Slice Pb
  Produce : Slice Pd
deriving DecidableEq, Repr

/-- Modelled from the spec: `api.Request` is declared outside serve.go; the
handler reads its fields `Machine` and `User`. -/
structure Request (M U : Type) where
  Machine : M
  User : U
deriving DecidableEq, Repr, Inhabited

/-- Modelled from the spec: `interpolation.Env` is declared outside serve.go;
the handler fills its fields `Machine` and `User`. -/
structure Env (M U : Type) where
  Machine : M
  User : U
deriving DecidableEq, Repr

/-- Modelled from the spec: `api.Response` is declared outside serve.go; the
handler appends to its slice fields `Tasks` and `Products`. -/
structure Response (T Pr : Type) where
  Tasks : Slice T
  Products : Slice Pr
deriving DecidableEq, Repr

/-- Result triple of `producer.Produce(env)`. -/
abbrev ProduceResult (T Pr : Type) : Type := Slice T × Slice Pr × Option GoError

/-- The part of `*http.Request` the handler looks at: `Body`, possibly nil. -/
structure HttpRequest (B : Type) where
  Body : Option B

/-- Value handed to `json.NewEncoder(w).Encode`: a `map[string]string` literal
or an `api.Response`. -/
inductive Payload (T Pr : Type) where
  | stringMap (m : List (String × String)) : Payload T Pr
  | response (resp : Response T Pr) : Payload T Pr
deriving DecidableEq, Repr

/-- State of the `http.ResponseWriter`: header entries added and values
encoded to it, both in order. -/
structure ResponseWriter (T Pr : Type) where
  header : List (String × String)
  written : List (Payload T Pr)
deriving DecidableEq, Repr

/-- `type harvestHandler struct`. -/
structure harvestHandler (Pb Pd : Type) where
  policies : Slice (Policy Pb Pd)

/-! ## Request handling -/

/-- `ReadJSON(r, j)`: `decode b j` stands for `json.NewDecoder(b).Decode(&j)`
and gives the value left in `j` together with the returned error. -/
def ReadJSON {B J : Type} (decode : B → J → J × Option GoError)
    (r : HttpRequest B) (j : J) : J × Option GoError :=
  match r.Body with
  | none => (j, some ⟨"read json: no body"⟩)
  | some body => decode body j

/-- `WriteJSON(w, j)`: adds the content type header and encodes `j` to `w`.
What is recorded is the value given to the encoder; its rendering as text, and
an encoder failure (which the source only logs), are outside the embedding. -/
def WriteJSON {T Pr : Type} (w : ResponseWriter T Pr) (j : Payload T Pr) :
    ResponseWriter T Pr :=
  { header := w.header ++ [("Content-Type", "application/json; charset=utf-8")],
    written := w.written ++ [j] }

/-- Variables live in the dispatch loops of `ServeHTTP`: the local `resp` and
the record of `Produce` calls made so far. -/
structure DispatchState (T Pr Pd : Type) where
  resp : Response T Pr
  calls : List Pd

/-- Inner loop of `ServeHTTP` (lines 132-140), over the remaining producers of
one policy. `.error (err, calls)` is the `return` of line 136. -/
def produceLoop {M U T Pr Pd : Type} (Produce : Pd → Env M U → ProduceResult T Pr)
    (env : Env M U) :
    List Pd → DispatchState T Pr Pd → Except (GoError × List Pd) (DispatchState T Pr Pd)
  | [], s => .ok s
  | producer :: rest, s =>
    match Produce producer env with
    | (_, _, some err) => .error (err, s.calls ++ [producer])
    | (t, p, none) =>
      produceLoop Produce env rest
        { resp := { Tasks := s.resp.Tasks.append t.toList,
                    Products := s.resp.Products.append p.toList },
          calls := s.calls ++ [producer] }

/-- Outer loop of `ServeHTTP` (lines 131-141), over the remaining policies. -/
def policiesLoop {M U T Pr Pb Pd : Type} (Produce : Pd → Env M U → ProduceResult T Pr)
    (env : Env M U) :
    List (Policy Pb Pd) → DispatchState T Pr Pd →
      Except (GoError × List Pd) (DispatchState T Pr Pd)
  | [], s => .ok s
  | policy :: rest, s =>
    match produceLoop Produce env policy.Produce.toList s with
    | .error e => .error e
    | .ok s' => policiesLoop Produce env rest s'

/-- Lines 130-141 of `ServeHTTP`: `var resp api.Response` followed by the two
nested loops. -/
def dispatch {M U T Pr Pb Pd : Type} (Produce : Pd → Env M U → ProduceResult T Pr)
    (policies : List (Policy Pb Pd)) (env : Env M U) :
    Except (GoError × List Pd) (DispatchState T Pr Pd) :=
  policiesLoop Produce env policies { resp := { Tasks := .nil, Products := .nil }, calls := [] }

/-- Everything one run of `ServeHTTP` does: the response writer afterwards,
the lines given to `log.Print`, the values `printJSON` encodes to standard
output, and the `Produce` calls made. -/
structure Served (M U T Pr Pd : Type) where
  w : ResponseWriter T Pr
  log : List String
  stdout : List (Env M U)
  calls : List Pd

/-- `func (h *harvestHandler) ServeHTTP(w, r)`. `default` is the zero value of
`var req api.Request`. -/
def ServeHTTP {B M U T Pr Pb Pd : Type} [Inhabited M] [Inhabited U]
    (decode : B → Request M U → Request M U × Option GoError)
    (Produce : Pd → Env M U → ProduceResult T Pr)
    (h : harvestHandler Pb Pd) (w : ResponseWriter T Pr) (r : HttpRequest B) :
    Served M U T Pr Pd :=
  match ReadJSON decode r (default : Request M U) with
  | (_, some err) =>
    { w := WriteJSON w (.stringMap [("error", "bad")]),
      log := ["Bad request: " ++ err.Error],
      stdout := [],
      calls := [] }
  | (req, none) =>
    let env : Env M U := { Machine := req.Machine, User := req.User }
    match dispatch Produce h.policies.toList env with
    | .error (err, calls) =>
      { w := WriteJSON w (.stringMap [("error", err.Error)]),
        log := [],
        stdout := [env],
        calls := calls }
    | .ok s =>
      { w := WriteJSON w (.response s.resp),
        log := [],
        stdout := [env],
        calls := s.calls }

/-! ## Policy compilation -/

/-- Modelled from the spec: `config.Policy` is declared outside serve.go;
`castPolicies` reads its `Name` and ranges over its `Verify` and `Produce`
lists, whose entries are the raw unit descriptions given to `probes.New` and
`producers.New`. -/
structure config.Policy (RP RQ : Type) where
  Name : String
  Verify : List RP
  Produce : List RQ

/-- One call of a unit constructor: `probes.New(raw)` or `producers.New(raw)`. -/
inductive UnitCall (RP RQ : Type) where
  | probe (raw : RP) : UnitCall RP RQ
  | producer (raw : RQ) : UnitCall RP RQ
deriving DecidableEq, Repr

/-- Variables live inside the body of the outer loop of `castPolicies`: the
local `policy` and the record of constructor calls made so far. -/
structure CastState (RP RQ Pb Pd : Type) where
  policy : Policy Pb Pd
  calls : List (UnitCall RP RQ)

/-- First inner loop of `castPolicies` (lines 71-77), over the remaining
entries of `p.Verify`. `.error (err, calls)` is the `return nil, err` of
line 74. -/
def castVerifyLoop {RP RQ Pb Pd : Type} (probesNew : RP → Pb × Option GoError) :
    List RP → CastState RP RQ Pb Pd →
      Except (GoError × List (UnitCall RP RQ)) (CastState RP RQ Pb Pd)
  | [], s => .ok s
  | probe :: rest, s =>
    match probesNew probe with
    | (_, some err) => .error (err, s.calls ++ [.probe probe])
    | (probe', none) =>
      castVerifyLoop probesNew rest
        { policy := { s.policy with Verify := s.policy.Verify.append [probe'] },
          calls := s.calls ++ [.probe probe] }

/-- Second inner loop of `castPolicies` (lines 79-85), over the remaining
entries of `p.Produce`. `.error (err, calls)` is the `return nil, err` of
line 82. -/
def castProduceLoop {RP RQ Pb Pd : Type} (producersNew : RQ → Pd × Option GoError) :
    List RQ → CastState RP RQ Pb Pd →
      Except (GoError × List (UnitCall RP RQ)) (CastState RP RQ Pb Pd)
  | [], s => .ok s
  | producer :: rest, s =>
    match producersNew producer with
    | (_, some err) => .error (err, s.calls ++ [.producer producer])
    | (producer', none) =>
      castProduceLoop producersNew rest
        { policy := { s.policy with Produce := s.policy.Produce.append [producer'] },
          calls := s.calls ++ [.producer producer] }

/-- Outer loop of `castPolicies` (lines 64-88), over the remaining raw
policies; the state is the local `policies` and the calls made so far. -/
def castPoliciesLoop {RP RQ Pb Pd : Type} (probesNew : RP → Pb × Option GoError)
    (producersNew : RQ → Pd × Option GoError) :
    List (config.Policy RP RQ) → Slice (Policy Pb Pd) × List (UnitCall RP RQ) →
      Except (GoError × List (UnitCall RP RQ)) (Slice (Policy Pb Pd) × List (UnitCall RP RQ))
  | [], s => .ok s
  | p :: rest, (policies, calls) =>
    let policy : Policy Pb Pd := { Name := p.Name, Verify := .mk [], Produce := .mk [] }
    match castVerifyLoop probesNew p.Verify { policy := policy, calls := calls } with
    | .error e => .error e
    | .ok s1 =>
      match castProduceLoop producersNew p.Produce s1 with
      | .error e => .error e
      | .ok s2 => castPoliciesLoop probesNew producersNew rest (policies.append [s2.policy], s2.calls)

/-- What `castPolicies` returns, together with the constructor calls it made. -/
structure CastResult (RP RQ Pb Pd : Type) where
  policies : Slice (Policy Pb Pd)
  err : Option GoError
  calls : List (UnitCall RP RQ)

/-- `func castPolicies(ps []config.Policy) ([]Policy, error)`. -/
def castPolicies {RP RQ Pb Pd : Type} (probesNew : RP → Pb × Option GoError)
    (producersNew : RQ → Pd × Option GoError) (ps : List (config.Policy RP RQ)) :
    CastResult RP RQ Pb Pd :=
  match castPoliciesLoop probesNew producersNew ps (.mk [], []) with
  | .error (err, calls) => { policies := .nil, err := some err, calls := calls }
  | .ok (policies, calls) => { policies := policies, err := none, calls := calls }

/-! ## Vocabulary of the specification -/

/-- Producers of a compiled policy list in policy-then-producer order. -/
def producersOf {Pb Pd : Type} (policies : List (Policy Pb Pd)) : List Pd :=
  (policies.map (fun policy => policy.Produce.toList)).flatten

/-- Task lists returned by the given producers, concatenated in order. -/
def tasksOf {M U T Pr Pd : Type} (Produce : Pd → Env M U → ProduceResult T Pr)
    (env : Env M U) (producers : List Pd) : List T :=
  (producers.map (fun producer => (Produce producer env).1.toList)).flatten

/-- Product lists returned by the given producers, concatenated in order. -/
def productsOf {M U T Pr Pd : Type} (Produce : Pd → Env M U → ProduceResult T Pr)
    (env : Env M U) (producers : List Pd) : List Pr :=
  (producers.map (fun producer => (Produce producer env).2.1.toList)).flatten

/-- Unit entries of one raw policy in traversal order: all verify entries,
then all produce entries. -/
def unitsOfPolicy {RP RQ : Type} (p : config.Policy RP RQ) : List (UnitCall RP RQ) :=
  p.Verify.map .probe ++ p.Produce.map .producer

/-- Unit entries of a raw policy list in traversal order. -/
def unitsOf {RP RQ : Type} (ps : List (config.Policy RP RQ)) : List (UnitCall RP RQ) :=
  (ps.map unitsOfPolicy).flatten

/-- Error returned by the constructor for a unit entry. -/
def unitErr {RP RQ Pb Pd : Type} (probesNew : RP → Pb × Option GoError)
    (producersNew : RQ → Pd × Option GoError) : UnitCall RP RQ → Option GoError
  | .probe raw => (probesNew raw).2
  | .producer raw => (producersNew raw).2

/-- Compiled form of one raw policy when every constructor succeeds. -/
def compiledPolicy {RP RQ Pb Pd : Type} (probesNew : RP → Pb × Option GoError)
    (producersNew : RQ → Pd × Option GoError) (p : config.Policy RP RQ) : Policy Pb Pd :=
  { Name := p.Name,
    Verify := .mk (p.Verify.map (fun raw => (probesNew raw).1)),
    Produce := .mk (p.Produce.map (fun raw => (producersNew raw).1)) }

/-- Going through unit entries in order up to the first one whose constructor
fails: that constructor's error and the entries gone through, the failing one
included; `none` when every constructor succeeds. -/
def firstFailure {RP RQ Pb Pd : Type} (probesNew : RP → Pb × Option GoError)
    (producersNew : RQ → Pd × Option GoError) :
    List (UnitCall RP RQ) → Option (GoError × List (UnitCall RP RQ))
  | [] => none
  | c :: rest =>
    match unitErr probesNew producersNew c with
    | some err => some (err, [c])
    | none => (firstFailure probesNew producersNew rest).map (fun r => (r.1, c :: r.2))

/-! ## Sample data -/

/-- Sample decoder: the body `"m1/u1"` decodes to machine `m1`, user `u1`;
any other body is rejected and leaves the target untouched. -/
def sampleDecode (body : String) (j : Request String String) :
    Request String String × Option GoError :=
  if body = "m1/u1" then ({ Machine := "m1", User := "u1" }, none)
  else (j, some ⟨"invalid character"⟩)

/-- Sample producers, named by numbers: 0 echoes one task, 1 gives a task and
a product for the user, 2 gives nothing, every other one fails. -/
def sampleProduce (producer : Nat) (env : Env String String) : ProduceResult String String :=
  match producer with
  | 0 => (.mk ["t1"], .mk [], none)
  | 1 => (.mk ["t2"], .mk ["cert-" ++ env.User], none)
  | 2 => (.nil, .nil, none)
  | _ => (.nil, .nil, some ⟨"producer failed"⟩)

/-- Sample request carrying the decodable body. -/
def sampleRequest : HttpRequest String := { Body := some "m1/u1" }

/-- Fresh response writer. -/
def emptyWriter : ResponseWriter String String := { header := [], written := [] }

/-- Handler of the scenario with the single policy `p1` and the echo producer. -/
def echoHandler : harvestHandler Unit Nat :=
  { policies := .mk [{ Name := "p1", Verify := .mk [], Produce := .mk [0] }] }

/-- Handler with two policies whose second policy has a failing producer
followed by a working one. -/
def failingHandler : harvestHandler Unit Nat :=
  { policies := .mk [{ Name := "p1", Verify := .mk [], Produce := .mk [0, 1] },
                     { Name := "p2", Verify := .mk [()], Produce := .mk [7, 0] }] }

/-- Handler whose compiled policy list is empty, as `castPolicies` returns it
for an empty configuration. -/
def emptyHandler : harvestHandler Unit Nat := { policies := .mk [] }

/-- The echo scenario under another policy name and with two probes to verify. -/
def guardedEchoHandler : harvestHandler Unit Nat :=
  { policies := .mk [{ Name := "guarded", Verify := .mk [(), ()], Produce := .mk [0] }] }

/-- Request without a body. -/
def bodilessRequest : HttpRequest String := { Body := none }

/-- Sample probe registry: the type tag `unknown` is not registered. -/
def sampleProbesNew (raw : String) : String × Option GoError :=
  if raw = "unknown" then ("", some ⟨"probes: unknown type"⟩)
  else ("probe:" ++ raw, none)

/-- Sample producer registry: the type tag `unknown` is not registered. -/
def sampleProducersNew (raw : String) : String × Option GoError :=
  if raw = "unknown" then ("", some ⟨"producers: unknown type"⟩)
  else ("producer:" ++ raw, none)

/-- Configuration whose units are all registered; `p1` has no verify entry
and `p2` no produce entry. -/
def goodConfig : List (config.Policy String String) :=
  [{ Name := "p1", Verify := [], Produce := ["echo"] },
   { Name := "p2", Verify := ["file"], Produce := [] }]

/-- Configuration whose second policy names an unregistered probe, after a
first policy that compiles and before entries that would also fail. -/
def badConfig : List (config.Policy String String) :=
  [{ Name := "p1", Verify := ["file"], Produce := ["echo"] },
   { Name := "p2", Verify := ["file", "unknown"], Produce := ["unknown", "echo"] },
   { Name := "p3", Verify := ["file"], Produce := [] }]

/-! ## Slices -/

theorem Slice.toList_nil {α : Type} : (Slice.nil : Slice α).toList = [] := rfl

theorem Slice.toList_mk {α : Type} (xs : List α) : (Slice.mk xs).toList = xs := rfl

theorem Slice.toList_append {α : Type} (s : Slice α) (xs : List α) :
    (s.append xs).toList = s.toList ++ xs := by
  cases xs with
  | nil => simp [Slice.append]
  | cons x xs => simp [Slice.append, Slice.toList]

theorem Slice.append_nil {α : Type} (s : Slice α) : s.append [] = s := rfl

theorem Slice.mk_append {α : Type} (l xs : List α) :
    (Slice.mk l).append xs = Slice.mk (l ++ xs) := by
  cases xs with
  | nil => simp [Slice.append]
  | cons x xs => simp [Slice.append, Slice.toList]

theorem Slice.append_append {α : Type} (s : Slice α) (xs ys : List α) :
    (s.append xs).append ys = s.append (xs ++ ys) := by
  cases ys with
  | nil => simp [Slice.append]
  | cons y ys =>
    cases xs with
    | nil => simp [Slice.append]
    | cons x xs => simp [Slice.append, Slice.toList]

/-! ## The dispatch loops -/

section Dispatch

variable {M U T Pr Pb Pd : Type}

theorem producersOf_nil : producersOf ([] : List (Policy Pb Pd)) = [] := rfl

theorem producersOf_cons (policy : Policy Pb Pd) (rest : List (Policy Pb Pd)) :
    producersOf (policy :: rest) = policy.Produce.toList ++ producersOf rest := by
  simp [producersOf]

theorem producersOf_append (ps qs : List (Policy Pb Pd)) :
    producersOf (ps ++ qs) = producersOf ps ++ producersOf qs := by
  simp [producersOf]

theorem mem_producersOf (policies : List (Policy Pb Pd)) (producer : Pd) :
    producer ∈ producersOf policies ↔
      ∃ policy ∈ policies, producer ∈ policy.Produce.toList := by
  simp [producersOf]

theorem tasksOf_cons (Produce : Pd → Env M U → ProduceResult T Pr) (env : Env M U)
    (producer : Pd) (rest : List Pd) :
    tasksOf Produce env (producer :: rest)
      = (Produce producer env).1.toList ++ tasksOf Produce env rest := by
  simp [tasksOf]

theorem productsOf_cons (Produce : Pd → Env M U → ProduceResult T Pr) (env : Env M U)
    (producer : Pd) (rest : List Pd) :
    productsOf Produce env (producer :: rest)
      = (Produce producer env).2.1.toList ++ productsOf Produce env rest := by
  simp [productsOf]

theorem tasksOf_producersOf (Produce : Pd → Env M U → ProduceResult T Pr) (env : Env M U)
    (policies : List (Policy Pb Pd)) :
    tasksOf Produce env (producersOf policies)
      = (policies.map (fun policy =>
          (policy.Produce.toList.map
            (fun producer => (Produce producer env).1.toList)).flatten)).flatten := by
  induction policies with
  | nil => rfl
  | cons policy rest ih =>
    rw [producersOf_cons]
    simp only [tasksOf, List.map_append, List.flatten_append, List.map_cons,
      List.flatten_cons] at ih ⊢
    rw [ih]

theorem productsOf_producersOf (Produce : Pd → Env M U → ProduceResult T Pr) (env : Env M U)
    (policies : List (Policy Pb Pd)) :
    productsOf Produce env (producersOf policies)
      = (policies.map (fun policy =>
          (policy.Produce.toList.map
            (fun producer => (Produce producer env).2.1.toList)).flatten)).flatten := by
  induction policies with
  | nil => rfl
  | cons policy rest ih =>
    rw [producersOf_cons]
    simp only [productsOf, List.map_append, List.flatten_append, List.map_cons,
      List.flatten_cons] at ih ⊢
    rw [ih]

/-- Running the inner loop over `xs ++ ys` is running it over `xs` and, unless
that returned, over `ys` from the state reached. -/
theorem produceLoop_append (Produce : Pd → Env M U → ProduceResult T Pr) (env : Env M U)
    (xs ys : List Pd) (s : DispatchState T Pr Pd) :
    produceLoop Produce env (xs ++ ys) s
      = match produceLoop Produce env xs s with
        | .error e => .error e
        | .ok s' => produceLoop Produce env ys s' := by
  induction xs generalizing s with
  | nil => rfl
  | cons x xs ih =>
    rcases hx : Produce x env with ⟨t, p, _ | err⟩
    · simp [produceLoop, hx, ih]
    · simp [produceLoop, hx]

/-- The nested loops are the inner loop run over the flattened producers. -/
theorem policiesLoop_eq_produceLoop (Produce : Pd → Env M U → ProduceResult T Pr)
    (env : Env M U) (policies : List (Policy Pb Pd)) (s : DispatchState T Pr Pd) :
    policiesLoop Produce env policies s
      = produceLoop Produce env (producersOf policies) s := by
  induction policies generalizing s with
  | nil => rfl
  | cons policy rest ih =>
    rw [producersOf_cons, produceLoop_append, policiesLoop]
    cases produceLoop Produce env policy.Produce.toList s with
    | error e => rfl
    | ok s' => exact ih s'

/-- When every producer succeeds the inner loop exits normally, having
appended every returned list and called every producer. -/
theorem produceLoop_ok (Produce : Pd → Env M U → ProduceResult T Pr) (env : Env M U)
    (xs : List Pd) (s : DispatchState T Pr Pd)
    (hok : ∀ producer ∈ xs, (Produce producer env).2.2 = none) :
    produceLoop Produce env xs s
      = .ok { resp := { Tasks := s.resp.Tasks.append (tasksOf Produce env xs),
                        Products := s.resp.Products.append (productsOf Produce env xs) },
              calls := s.calls ++ xs } := by
  induction xs generalizing s with
  | nil => simp [produceLoop, tasksOf, productsOf, Slice.append_nil]
  | cons x xs ih =>
    have hx := hok x (List.mem_cons_self x xs)
    rcases hp : Produce x env with ⟨t, p, e⟩
    rw [hp] at hx
    simp only at hx
    subst hx
    rw [produceLoop, hp]
    simp only
    rw [ih _ (fun q hq => hok q (List.mem_cons_of_mem x hq))]
    simp [tasksOf_cons, productsOf_cons, hp, Slice.append_append]

/-- When `pk` is the first producer that fails, the inner loop returns at it
with its error, having called the producers up to `pk` and no other. -/
theorem produceLoop_fail (Produce : Pd → Env M U → ProduceResult T Pr) (env : Env M U)
    (before after : List Pd) (pk : Pd) (err : GoError) (s : DispatchState T Pr Pd)
    (hok : ∀ producer ∈ before, (Produce producer env).2.2 = none)
    (hfail : (Produce pk env).2.2 = some err) :
    produceLoop Produce env (before ++ pk :: after) s
      = .error (err, s.calls ++ before ++ [pk]) := by
  rw [produceLoop_append, produceLoop_ok Produce env before s hok]
  rcases hp : Produce pk env with ⟨t, p, e⟩
  rw [hp] at hfail
  simp only at hfail
  subst hfail
  simp [produceLoop, hp]

/-- The dispatch is the inner loop run over the flattened producers from the
zero response. -/
theorem dispatch_eq_produceLoop (Produce : Pd → Env M U → ProduceResult T Pr)
    (policies : List (Policy Pb Pd)) (env : Env M U) :
    dispatch Produce policies env
      = produceLoop Produce env (producersOf policies)
          { resp := { Tasks := .nil, Products := .nil }, calls := [] } := by
  rw [dispatch, policiesLoop_eq_produceLoop]

/-- Starting the inner loop from the state `s` extended by `s0` gives the
result of starting it from `s0`, with `s` put in front. -/
theorem produceLoop_shift (Produce : Pd → Env M U → ProduceResult T Pr) (env : Env M U)
    (xs : List Pd) (s s0 : DispatchState T Pr Pd) :
    produceLoop Produce env xs
        { resp := { Tasks := s.resp.Tasks.append s0.resp.Tasks.toList,
                    Products := s.resp.Products.append s0.resp.Products.toList },
          calls := s.calls ++ s0.calls }
      = match produceLoop Produce env xs s0 with
        | .error (err, calls) => .error (err, s.calls ++ calls)
        | .ok s1 =>
          .ok { resp := { Tasks := s.resp.Tasks.append s1.resp.Tasks.toList,
                          Products := s.resp.Products.append s1.resp.Products.toList },
                calls := s.calls ++ s1.calls } := by
  induction xs generalizing s0 with
  | nil => rfl
  | cons x xs ih =>
    rcases hx : Produce x env with ⟨t, p, _ | err⟩
    · have step := ih
        { resp := { Tasks := s0.resp.Tasks.append t.toList,
                    Products := s0.resp.Products.append p.toList },
          calls := s0.calls ++ [x] }
      simp only [Slice.toList_append, List.append_assoc] at step
      simp only [produceLoop, hx, Slice.append_append, List.append_assoc]
      exact step
    · simp [produceLoop, hx]

end Dispatch

/-! ## The handler -/

section Handler

variable {B M U T Pr Pb Pd : Type} [Inhabited M] [Inhabited U]

/-- With a body that decodes, the handler is the dispatch followed by the one
`WriteJSON` of the branch taken. -/
theorem ServeHTTP_decoded (decode : B → Request M U → Request M U × Option GoError)
    (Produce : Pd → Env M U → ProduceResult T Pr) (h : harvestHandler Pb Pd)
    (w : ResponseWriter T Pr) (r : HttpRequest B) (body : B) (req : Request M U)
    (hbody : r.Body = some body) (hdec : decode body default = (req, none)) :
    ServeHTTP decode Produce h w r
      = match dispatch Produce h.policies.toList
            ({ Machine := req.Machine, User := req.User } : Env M U) with
        | .error (err, calls) =>
          { w := WriteJSON w (.stringMap [("error", err.Error)]),
            log := [],
            stdout := [{ Machine := req.Machine, User := req.User }],
            calls := calls }
        | .ok s =>
          { w := WriteJSON w (.response s.resp),
            log := [],
            stdout := [{ Machine := req.Machine, User := req.User }],
            calls := s.calls } := by
  simp only [ServeHTTP, ReadJSON, hbody, hdec]

/-- C1. For a request whose body decodes to `req`, if every producer of every
policy succeeds on the environment built from `req.Machine` and `req.User`,
the handler writes one payload, a response whose `Tasks` are the task lists
returned by the producers, concatenated in policy order and within a policy in
producer order, and whose `Products` are the returned product lists
concatenated the same way. -/
theorem harvest_success_concatenates
    (decode : B → Request M U → Request M U × Option GoError)
    (Produce : Pd → Env M U → ProduceResult T Pr) (h : harvestHandler Pb Pd)
    (w : ResponseWriter T Pr) (r : HttpRequest B) (body : B) (req : Request M U)
    (hbody : r.Body = some body) (hdec : decode body default = (req, none))
    (hok : ∀ policy ∈ h.policies.toList, ∀ producer ∈ policy.Produce.toList,
      (Produce producer { Machine := req.Machine, User := req.User }).2.2 = none) :
    ∃ resp : Response T Pr,
      (ServeHTTP decode Produce h w r).w.written = w.written ++ [.response resp] ∧
      resp.Tasks.toList
        = (h.policies.toList.map (fun policy =>
            (policy.Produce.toList.map (fun producer =>
              (Produce producer { Machine := req.Machine, User := req.User }).1.toList)
            ).flatten)).flatten ∧
      resp.Products.toList
        = (h.policies.toList.map (fun policy =>
            (policy.Produce.toList.map (fun producer =>
              (Produce producer { Machine := req.Machine, User := req.User }).2.1.toList)
            ).flatten)).flatten := by
  have hall : ∀ producer ∈ producersOf h.policies.toList,
      (Produce producer { Machine := req.Machine, User := req.User }).2.2 = none := by
    intro producer hmem
    obtain ⟨policy, hp, hq⟩ := (mem_producersOf _ _).1 hmem
    exact hok policy hp producer hq
  rw [ServeHTTP_decoded decode Produce h w r body req hbody hdec, dispatch_eq_produceLoop,
    produceLoop_ok Produce _ _ _ hall]
  refine ⟨_, rfl, ?_, ?_⟩
  · simp only [Slice.toList_append, Slice.toList_nil, List.nil_append]
    exact tasksOf_producersOf Produce _ _
  · simp only [Slice.toList_append, Slice.toList_nil, List.nil_append]
    exact productsOf_producersOf Produce _ _

/-- Scenario of C1: policy `p1` with the echo producer, environment `m1`/`u1`. -/
theorem harvest_success_concatenates_witness :
    ∃ resp : Response String String,
      (ServeHTTP sampleDecode sampleProduce echoHandler emptyWriter sampleRequest).w.written
        = [.response resp] ∧
      resp.Tasks.toList = ["t1"] ∧ resp.Products.toList = [] := by
  have key := harvest_success_concatenates sampleDecode sampleProduce echoHandler emptyWriter
    sampleRequest "m1/u1" { Machine := "m1", User := "u1" } rfl rfl
    (by simp [echoHandler, Slice.toList, sampleProduce])
  simpa [echoHandler, emptyWriter, Slice.toList, sampleProduce] using key

/-- C2. For a request whose body decodes, if `pk` is the first producer in
policy-then-producer order that fails, the handler writes exactly one payload,
the map with the single key `error` holding the text of the error `pk`
returned; nothing returned by the producers before `pk` is written and no
response value is written. -/
theorem harvest_failure_only_error
    (decode : B → Request M U → Request M U × Option GoError)
    (Produce : Pd → Env M U → ProduceResult T Pr) (h : harvestHandler Pb Pd)
    (w : ResponseWriter T Pr) (r : HttpRequest B) (body : B) (req : Request M U)
    (before after : List Pd) (pk : Pd) (err : GoError)
    (hbody : r.Body = some body) (hdec : decode body default = (req, none))
    (hsplit : producersOf h.policies.toList = before ++ pk :: after)
    (hok : ∀ producer ∈ before,
      (Produce producer { Machine := req.Machine, User := req.User }).2.2 = none)
    (hfail : (Produce pk { Machine := req.Machine, User := req.User }).2.2 = some err) :
    (ServeHTTP decode Produce h w r).w.written
        = w.written ++ [.stringMap [("error", err.Error)]] ∧
      ∀ resp : Response T Pr,
        Payload.response resp ∉ (ServeHTTP decode Produce h w r).w.written.drop w.written.length := by
  rw [ServeHTTP_decoded decode Produce h w r body req hbody hdec, dispatch_eq_produceLoop,
    hsplit, produceLoop_fail Produce _ before after pk err _ hok hfail]
  simp [WriteJSON]

/-- Scenario of C2: the second policy's producer 7 fails after producers 0 and
1 of the first policy returned tasks and a product. -/
theorem harvest_failure_only_error_witness :
    (ServeHTTP sampleDecode sampleProduce failingHandler emptyWriter sampleRequest).w.written
      = [.stringMap [("error", "producer failed")]] := by
  have key := harvest_failure_only_error sampleDecode sampleProduce failingHandler emptyWriter
    sampleRequest "m1/u1" { Machine := "m1", User := "u1" } [0, 1] [0] 7 ⟨"producer failed"⟩
    rfl rfl rfl (by simp [sampleProduce]) rfl
  simpa [emptyWriter] using key.1

/-- C3. For a request whose body decodes, if `pk` is the first producer in
policy-then-producer order that fails, the `Produce` calls made by the handler
are those of the producers before `pk` followed by `pk`, one call each in that
order, and no producer after `pk` is called. -/
theorem harvest_stops_at_first_failure
    (decode : B → Request M U → Request M U × Option GoError)
    (Produce : Pd → Env M U → ProduceResult T Pr) (h : harvestHandler Pb Pd)
    (w : ResponseWriter T Pr) (r : HttpRequest B) (body : B) (req : Request M U)
    (before after : List Pd) (pk : Pd) (err : GoError)
    (hbody : r.Body = some body) (hdec : decode body default = (req, none))
    (hsplit : producersOf h.policies.toList = before ++ pk :: after)
    (hok : ∀ producer ∈ before,
      (Produce producer { Machine := req.Machine, User := req.User }).2.2 = none)
    (hfail : (Produce pk { Machine := req.Machine, User := req.User }).2.2 = some err) :
    (ServeHTTP decode Produce h w r).calls = before ++ [pk] := by
  rw [ServeHTTP_decoded decode Produce h w r body req hbody hdec, dispatch_eq_produceLoop,
    hsplit, produceLoop_fail Produce _ before after pk err _ hok hfail]
  simp

/-- Scenario of C3: producers 0, 1, 7, 0 are configured and 7 fails; the last
one is never called. -/
theorem harvest_stops_at_first_failure_witness :
    (ServeHTTP sampleDecode sampleProduce failingHandler emptyWriter sampleRequest).calls
      = [0, 1, 7] :=
  harvest_stops_at_first_failure sampleDecode sampleProduce failingHandler emptyWriter
    sampleRequest "m1/u1" { Machine := "m1", User := "u1" } [0, 1] [0] 7 ⟨"producer failed"⟩
    rfl rfl rfl (by simp [sampleProduce]) rfl

/-- C7. For a request whose body decodes, when the compiled policy list is
empty, and likewise when no policy has a producer, the handler writes one
payload, the response whose `Tasks` and `Products` are both the empty
sequence (the nil slices of the zero `api.Response`), and calls no producer;
it writes no error. -/
theorem harvest_no_producers
    (decode : B → Request M U → Request M U × Option GoError)
    (Produce : Pd → Env M U → ProduceResult T Pr) (h : harvestHandler Pb Pd)
    (w : ResponseWriter T Pr) (r : HttpRequest B) (body : B) (req : Request M U)
    (hbody : r.Body = some body) (hdec : decode body default = (req, none))
    (hnone : h.policies.toList = [] ∨
      ∀ policy ∈ h.policies.toList, policy.Produce.toList = []) :
    ∃ resp : Response T Pr,
      (ServeHTTP decode Produce h w r).w.written = w.written ++ [.response resp] ∧
      resp.Tasks.toList = [] ∧ resp.Products.toList = [] ∧
      resp = { Tasks := .nil, Products := .nil } ∧
      (ServeHTTP decode Produce h w r).calls = [] := by
  have hflat : producersOf h.policies.toList = [] := by
    rcases hnone with hnil | hall
    · rw [hnil]; rfl
    · rw [List.eq_nil_iff_forall_not_mem]
      intro producer hmem
      obtain ⟨policy, hp, hq⟩ := (mem_producersOf _ _).1 hmem
      rw [hall policy hp] at hq
      exact List.not_mem_nil _ hq
  rw [ServeHTTP_decoded decode Produce h w r body req hbody hdec, dispatch_eq_produceLoop, hflat]
  exact ⟨_, rfl, rfl, rfl, rfl, rfl⟩

/-- Scenario of C7: the empty policy list. -/
theorem harvest_no_producers_witness :
    ∃ resp : Response String String,
      (ServeHTTP sampleDecode sampleProduce emptyHandler emptyWriter sampleRequest).w.written
        = emptyWriter.written ++ [.response resp] ∧
      resp.Tasks.toList = [] ∧ resp.Products.toList = [] ∧
      resp = { Tasks := .nil, Products := .nil } ∧
      (ServeHTTP sampleDecode sampleProduce emptyHandler emptyWriter sampleRequest).calls = [] :=
  harvest_no_producers sampleDecode sampleProduce emptyHandler emptyWriter sampleRequest
    "m1/u1" { Machine := "m1", User := "u1" } rfl rfl (Or.inl rfl)

/-- C8. When the request body is nil or does not decode, `ReadJSON` returns an
error and the handler writes exactly one payload, the map with the single key
`error` holding the fixed text `bad`, and calls no producer. When the body is
present and decodes to `req`, `ReadJSON` returns no error and the handler runs
the dispatch on the environment built from `req`, writing the payload of the
branch the dispatch ends in. -/
theorem harvest_bad_request
    (decode : B → Request M U → Request M U × Option GoError)
    (Produce : Pd → Env M U → ProduceResult T Pr) (h : harvestHandler Pb Pd)
    (w : ResponseWriter T Pr) (r : HttpRequest B) :
    ((r.Body = none ∨ ∃ body, r.Body = some body ∧ (decode body default).2 ≠ none) →
      (ReadJSON decode r (default : Request M U)).2 ≠ none ∧
      (ServeHTTP decode Produce h w r).w.written
        = w.written ++ [.stringMap [("error", "bad")]] ∧
      (ServeHTTP decode Produce h w r).calls = []) ∧
    (∀ (body : B) (req : Request M U),
      r.Body = some body → decode body default = (req, none) →
      ReadJSON decode r (default : Request M U) = (req, none) ∧
      (ServeHTTP decode Produce h w r).stdout
        = [{ Machine := req.Machine, User := req.User }] ∧
      (ServeHTTP decode Produce h w r).w.written
        = w.written ++
          [match dispatch Produce h.policies.toList
              ({ Machine := req.Machine, User := req.User } : Env M U) with
            | .error (err, _) => Payload.stringMap [("error", err.Error)]
            | .ok s => Payload.response s.resp] ∧
      (ServeHTTP decode Produce h w r).calls
        = match dispatch Produce h.policies.toList
              ({ Machine := req.Machine, User := req.User } : Env M U) with
          | .error (_, calls) => calls
          | .ok s => s.calls) := by
  constructor
  · rintro (hnil | ⟨body, hbody, hdec⟩)
    · simp [ServeHTTP, ReadJSON, hnil, WriteJSON]
    · rcases hd : decode body default with ⟨j, _ | err⟩
      · rw [hd] at hdec
        exact absurd rfl hdec
      · simp [ServeHTTP, ReadJSON, hbody, hd, WriteJSON]
  · intro body req hbody hdec
    rw [ServeHTTP_decoded decode Produce h w r body req hbody hdec]
    refine ⟨by simp [ReadJSON, hbody, hdec], ?_⟩
    rcases dispatch Produce h.policies.toList
        ({ Machine := req.Machine, User := req.User } : Env M U) with ⟨err, calls⟩ | s
    · simp [WriteJSON]
    · simp [WriteJSON]

/-- Scenario of C8: a request without a body against the failing handler. -/
theorem harvest_bad_request_witness :
    (ReadJSON sampleDecode bodilessRequest (default : Request String String)).2 ≠ none ∧
    (ServeHTTP sampleDecode sampleProduce failingHandler emptyWriter bodilessRequest).w.written
      = emptyWriter.written ++ [.stringMap [("error", "bad")]] ∧
    (ServeHTTP sampleDecode sampleProduce failingHandler emptyWriter bodilessRequest).calls = [] :=
  (harvest_bad_request sampleDecode sampleProduce failingHandler emptyWriter
    bodilessRequest).1 (Or.inl rfl)

/-- C9. The handler calls no probe: two handlers whose policy lists have the
same `Produce` sequences in the same order, whatever their policies' `Name`
and `Verify` (even with probes of different types), run identically on every
request: same payloads written, same log, same standard output, same
`Produce` calls. -/
theorem harvest_ignores_verify {Pb' : Type}
    (decode : B → Request M U → Request M U × Option GoError)
    (Produce : Pd → Env M U → ProduceResult T Pr)
    (h1 : harvestHandler Pb Pd) (h2 : harvestHandler Pb' Pd)
    (w : ResponseWriter T Pr) (r : HttpRequest B)
    (hsame : h1.policies.toList.map (fun policy => policy.Produce.toList)
      = h2.policies.toList.map (fun policy => policy.Produce.toList)) :
    ServeHTTP decode Produce h1 w r = ServeHTTP decode Produce h2 w r := by
  have hflat : producersOf h1.policies.toList = producersOf h2.policies.toList := by
    simp only [producersOf, hsame]
  simp only [ServeHTTP, dispatch_eq_produceLoop, hflat]

/-- Scenario of C9: the echo policy against the same producers under another
name and behind two probes. -/
theorem harvest_ignores_verify_witness :
    ServeHTTP sampleDecode sampleProduce echoHandler emptyWriter sampleRequest
      = ServeHTTP sampleDecode sampleProduce guardedEchoHandler emptyWriter sampleRequest :=
  harvest_ignores_verify sampleDecode sampleProduce echoHandler guardedEchoHandler
    emptyWriter sampleRequest rfl

end Handler

section DispatchAlgebra

variable {M U T Pr Pb Pd : Type}

/-- C10. Dispatching `P ++ Q` gives the error of dispatching `P` when that
fails; otherwise the error of dispatching `Q` when that fails (after the calls
made for `P`); otherwise the response whose tasks and products are those of
`P` with those of `Q` appended, after the calls of both. Hence the dispatch is
determined by the flattened producer sequence: lists of policies with the same
flattened sequence dispatch alike. -/
theorem dispatch_append (Produce : Pd → Env M U → ProduceResult T Pr)
    (env : Env M U) (P Q : List (Policy Pb Pd)) :
    dispatch Produce (P ++ Q) env
      = (match dispatch Produce P env with
        | .error e => .error e
        | .ok sP =>
          match dispatch Produce Q env with
          | .error (err, calls) => .error (err, sP.calls ++ calls)
          | .ok sQ =>
            .ok { resp := { Tasks := sP.resp.Tasks.append sQ.resp.Tasks.toList,
                            Products := sP.resp.Products.append sQ.resp.Products.toList },
                  calls := sP.calls ++ sQ.calls }) ∧
    (∀ sP sQ : DispatchState T Pr Pd,
      dispatch Produce P env = .ok sP → dispatch Produce Q env = .ok sQ →
      ∃ s, dispatch Produce (P ++ Q) env = .ok s ∧
        s.resp.Tasks.toList = sP.resp.Tasks.toList ++ sQ.resp.Tasks.toList ∧
        s.resp.Products.toList = sP.resp.Products.toList ++ sQ.resp.Products.toList) ∧
    (∀ (Pb' : Type) (P' : List (Policy Pb' Pd)), producersOf P = producersOf P' →
      dispatch Produce P env = dispatch Produce P' env) := by
  have hmain : dispatch Produce (P ++ Q) env
      = (match dispatch Produce P env with
        | .error e => .error e
        | .ok sP =>
          match dispatch Produce Q env with
          | .error (err, calls) => .error (err, sP.calls ++ calls)
          | .ok sQ =>
            .ok { resp := { Tasks := sP.resp.Tasks.append sQ.resp.Tasks.toList,
                            Products := sP.resp.Products.append sQ.resp.Products.toList },
                  calls := sP.calls ++ sQ.calls }) := by
    simp only [dispatch_eq_produceLoop, producersOf_append, produceLoop_append]
    cases produceLoop Produce env (producersOf P)
        { resp := { Tasks := .nil, Products := .nil }, calls := [] } with
    | error e => rfl
    | ok sP =>
      have shift := produceLoop_shift Produce env (producersOf Q) sP
        { resp := { Tasks := .nil, Products := .nil }, calls := [] }
      simp only [Slice.toList_nil, Slice.append_nil, List.append_nil] at shift
      exact shift
  refine ⟨hmain, ?_, ?_⟩
  · intro sP sQ hP hQ
    rw [hmain, hP, hQ]
    exact ⟨_, rfl, Slice.toList_append _ _, Slice.toList_append _ _⟩
  · intro Pb' P' hflat
    rw [dispatch_eq_produceLoop, dispatch_eq_produceLoop, hflat]

/-- Scenario of C10: the two policies of the failing handler, dispatched as
the concatenation of two one-policy lists. -/
theorem dispatch_append_witness :
    dispatch sampleProduce
        ([({ Name := "p1", Verify := .mk [], Produce := .mk [0, 1] } : Policy Unit Nat)]
          ++ [{ Name := "p2", Verify := .mk [()], Produce := .mk [7, 0] }])
        { Machine := "m1", User := "u1" }
      = .error (⟨"producer failed"⟩, [0, 1] ++ [7]) :=
  (dispatch_append sampleProduce { Machine := "m1", User := "u1" }
    [{ Name := "p1", Verify := .mk [], Produce := .mk [0, 1] }]
    [{ Name := "p2", Verify := .mk [()], Produce := .mk [7, 0] }]).1.trans rfl

end DispatchAlgebra

/-! ## Policy compilation -/

section Cast

variable {RP RQ Pb Pd : Type}

theorem unitsOf_cons (p : config.Policy RP RQ) (rest : List (config.Policy RP RQ)) :
    unitsOf (p :: rest)
      = p.Verify.map .probe ++ (p.Produce.map .producer ++ unitsOf rest) := by
  simp [unitsOf, unitsOfPolicy]

theorem firstFailure_cons_ok (probesNew : RP → Pb × Option GoError)
    (producersNew : RQ → Pd × Option GoError) (c : UnitCall RP RQ)
    (rest : List (UnitCall RP RQ)) (hc : unitErr probesNew producersNew c = none) :
    firstFailure probesNew producersNew (c :: rest)
      = (firstFailure probesNew producersNew rest).map (fun r => (r.1, c :: r.2)) := by
  rw [firstFailure, hc]

theorem firstFailure_cons_err (probesNew : RP → Pb × Option GoError)
    (producersNew : RQ → Pd × Option GoError) (c : UnitCall RP RQ)
    (rest : List (UnitCall RP RQ)) (err : GoError)
    (hc : unitErr probesNew producersNew c = some err) :
    firstFailure probesNew producersNew (c :: rest) = some (err, [c]) := by
  rw [firstFailure, hc]

theorem firstFailure_append (probesNew : RP → Pb × Option GoError)
    (producersNew : RQ → Pd × Option GoError) (xs ys : List (UnitCall RP RQ)) :
    firstFailure probesNew producersNew (xs ++ ys)
      = match firstFailure probesNew producersNew xs with
        | some r => some r
        | none => (firstFailure probesNew producersNew ys).map (fun r => (r.1, xs ++ r.2)) := by
  induction xs with
  | nil => simp [firstFailure]
  | cons c xs ih =>
    cases hc : unitErr probesNew producersNew c with
    | some err =>
      rw [List.cons_append, firstFailure_cons_err _ _ _ _ err hc,
        firstFailure_cons_err _ _ _ _ err hc]
    | none =>
      rw [List.cons_append, firstFailure_cons_ok _ _ _ _ hc,
        firstFailure_cons_ok _ _ _ _ hc, ih]
      cases firstFailure probesNew producersNew xs with
      | some r => rfl
      | none =>
        cases firstFailure probesNew producersNew ys with
        | some r => rfl
        | none => rfl

theorem firstFailure_eq_none (probesNew : RP → Pb × Option GoError)
    (producersNew : RQ → Pd × Option GoError) (xs : List (UnitCall RP RQ)) :
    firstFailure probesNew producersNew xs = none
      ↔ ∀ c ∈ xs, unitErr probesNew producersNew c = none := by
  induction xs with
  | nil => simp [firstFailure]
  | cons c xs ih =>
    cases hc : unitErr probesNew producersNew c with
    | some err => simp [firstFailure, hc]
    | none => simp [firstFailure, hc, ih]

theorem firstFailure_split (probesNew : RP → Pb × Option GoError)
    (producersNew : RQ → Pd × Option GoError) (before after : List (UnitCall RP RQ))
    (c : UnitCall RP RQ) (err : GoError)
    (hok : ∀ u ∈ before, unitErr probesNew producersNew u = none)
    (hfail : unitErr probesNew producersNew c = some err) :
    firstFailure probesNew producersNew (before ++ c :: after) = some (err, before ++ [c]) := by
  rw [firstFailure_append, (firstFailure_eq_none probesNew producersNew before).2 hok]
  simp [firstFailure, hfail]

/-- The first inner loop, read off the first failure among the verify entries. -/
theorem castVerifyLoop_eq (probesNew : RP → Pb × Option GoError)
    (producersNew : RQ → Pd × Option GoError) (xs : List RP) (s : CastState RP RQ Pb Pd) :
    castVerifyLoop probesNew xs s
      = match firstFailure probesNew producersNew (xs.map .probe) with
        | some r => .error (r.1, s.calls ++ r.2)
        | none =>
          .ok { policy := { s.policy with
                  Verify := s.policy.Verify.append (xs.map (fun raw => (probesNew raw).1)) },
                calls := s.calls ++ xs.map .probe } := by
  induction xs generalizing s with
  | nil => simp [castVerifyLoop, firstFailure, Slice.append_nil]
  | cons x xs ih =>
    rcases hx : probesNew x with ⟨pb, _ | err⟩
    · simp only [castVerifyLoop, hx, ih, List.map_cons, firstFailure, unitErr,
        Slice.append_append, List.append_assoc, List.singleton_append]
      cases firstFailure probesNew producersNew (List.map UnitCall.probe xs) with
      | some r => rfl
      | none => rfl
    · simp [castVerifyLoop, hx, firstFailure, unitErr]

/-- The second inner loop, read off the first failure among the produce entries. -/
theorem castProduceLoop_eq (probesNew : RP → Pb × Option GoError)
    (producersNew : RQ → Pd × Option GoError) (xs : List RQ) (s : CastState RP RQ Pb Pd) :
    castProduceLoop producersNew xs s
      = match firstFailure probesNew producersNew (xs.map .producer) with
        | some r => .error (r.1, s.calls ++ r.2)
        | none =>
          .ok { policy := { s.policy with
                  Produce := s.policy.Produce.append (xs.map (fun raw => (producersNew raw).1)) },
                calls := s.calls ++ xs.map .producer } := by
  induction xs generalizing s with
  | nil => simp [castProduceLoop, firstFailure, Slice.append_nil]
  | cons x xs ih =>
    rcases hx : producersNew x with ⟨pd, _ | err⟩
    · simp only [castProduceLoop, hx, ih, List.map_cons, firstFailure, unitErr,
        Slice.append_append, List.append_assoc, List.singleton_append]
      cases firstFailure probesNew producersNew (List.map UnitCall.producer xs) with
      | some r => rfl
      | none => rfl
    · simp [castProduceLoop, hx, firstFailure, unitErr]

/-- The outer loop, read off the first failure among all unit entries in
traversal order. -/
theorem castPoliciesLoop_eq (probesNew : RP → Pb × Option GoError)
    (producersNew : RQ → Pd × Option GoError) (ps : List (config.Policy RP RQ))
    (policies : Slice (Policy Pb Pd)) (calls : List (UnitCall RP RQ)) :
    castPoliciesLoop probesNew producersNew ps (policies, calls)
      = match firstFailure probesNew producersNew (unitsOf ps) with
        | some r => .error (r.1, calls ++ r.2)
        | none =>
          .ok (policies.append (ps.map (compiledPolicy probesNew producersNew)),
               calls ++ unitsOf ps) := by
  induction ps generalizing policies calls with
  | nil => simp [castPoliciesLoop, unitsOf, firstFailure, Slice.append_nil]
  | cons p rest ih =>
    rw [unitsOf_cons, firstFailure_append, firstFailure_append, castPoliciesLoop]
    simp only [castVerifyLoop_eq probesNew producersNew,
      castProduceLoop_eq probesNew producersNew]
    cases firstFailure probesNew producersNew (List.map UnitCall.probe p.Verify) with
    | some r => rfl
    | none =>
      simp only
      cases firstFailure probesNew producersNew (List.map UnitCall.producer p.Produce) with
      | some r => simp
      | none =>
        simp only [ih, Slice.mk_append, List.nil_append, Slice.append_append]
        cases firstFailure probesNew producersNew (unitsOf rest) with
        | some r => simp
        | none => simp [compiledPolicy]

/-- The whole of `castPolicies`, read off the first failure among all unit
entries in traversal order. -/
theorem castPolicies_eq (probesNew : RP → Pb × Option GoError)
    (producersNew : RQ → Pd × Option GoError) (ps : List (config.Policy RP RQ)) :
    castPolicies probesNew producersNew ps
      = match firstFailure probesNew producersNew (unitsOf ps) with
        | some r => { policies := .nil, err := some r.1, calls := r.2 }
        | none =>
          { policies := .mk (ps.map (compiledPolicy probesNew producersNew)),
            err := none,
            calls := unitsOf ps } := by
  rw [castPolicies, castPoliciesLoop_eq]
  cases firstFailure probesNew producersNew (unitsOf ps) with
  | some r => simp
  | none => simp [Slice.mk_append]

theorem exists_unitErr_iff (probesNew : RP → Pb × Option GoError)
    (producersNew : RQ → Pd × Option GoError) (ps : List (config.Policy RP RQ)) :
    (∃ c ∈ unitsOf ps, unitErr probesNew producersNew c ≠ none)
      ↔ ∃ p ∈ ps, (∃ raw ∈ p.Verify, (probesNew raw).2 ≠ none) ∨
          (∃ raw ∈ p.Produce, (producersNew raw).2 ≠ none) := by
  constructor
  · rintro ⟨c, hc, hne⟩
    simp only [unitsOf, unitsOfPolicy, List.mem_flatten, List.mem_map] at hc
    obtain ⟨l, ⟨p, hp, rfl⟩, hcl⟩ := hc
    refine ⟨p, hp, ?_⟩
    rcases List.mem_append.1 hcl with hv | hq
    · obtain ⟨raw, hraw, rfl⟩ := List.mem_map.1 hv
      exact Or.inl ⟨raw, hraw, hne⟩
    · obtain ⟨raw, hraw, rfl⟩ := List.mem_map.1 hq
      exact Or.inr ⟨raw, hraw, hne⟩
  · rintro ⟨p, hp, ⟨raw, hraw, hne⟩ | ⟨raw, hraw, hne⟩⟩
    · refine ⟨.probe raw, ?_, hne⟩
      simp only [unitsOf, unitsOfPolicy, List.mem_flatten, List.mem_map]
      exact ⟨_, ⟨p, hp, rfl⟩, List.mem_append.2 (Or.inl (List.mem_map.2 ⟨raw, hraw, rfl⟩))⟩
    · refine ⟨.producer raw, ?_, hne⟩
      simp only [unitsOf, unitsOfPolicy, List.mem_flatten, List.mem_map]
      exact ⟨_, ⟨p, hp, rfl⟩, List.mem_append.2 (Or.inr (List.mem_map.2 ⟨raw, hraw, rfl⟩))⟩

/-- C4. `castPolicies` returns an error exactly when the constructor of some
verify entry (`probes.New`) or of some produce entry (`producers.New`) of some
policy of the input fails; and when it returns an error, the policy list it
returns is the nil slice. -/
theorem castPolicies_error_iff (probesNew : RP → Pb × Option GoError)
    (producersNew : RQ → Pd × Option GoError) (ps : List (config.Policy RP RQ)) :
    ((castPolicies probesNew producersNew ps).err ≠ none
      ↔ ∃ p ∈ ps, (∃ raw ∈ p.Verify, (probesNew raw).2 ≠ none) ∨
          (∃ raw ∈ p.Produce, (producersNew raw).2 ≠ none)) ∧
    ((castPolicies probesNew producersNew ps).err ≠ none →
      (castPolicies probesNew producersNew ps).policies = .nil) := by
  rw [← exists_unitErr_iff, castPolicies_eq]
  cases hff : firstFailure probesNew producersNew (unitsOf ps) with
  | some r =>
    refine ⟨⟨fun _ => ?_, fun _ => by simp⟩, fun _ => rfl⟩
    by_contra hnone
    have hall : ∀ c ∈ unitsOf ps, unitErr probesNew producersNew c = none := by
      intro c hc
      by_contra hne
      exact hnone ⟨c, hc, hne⟩
    rw [(firstFailure_eq_none probesNew producersNew _).2 hall] at hff
    cases hff
  | none =>
    have hall := (firstFailure_eq_none probesNew producersNew _).1 hff
    refine ⟨⟨fun hne => absurd rfl hne, ?_⟩, fun hne => absurd rfl hne⟩
    rintro ⟨c, hc, hne⟩
    exact absurd (hall c hc) hne

/-- Scenario of C4: the configuration with an unregistered probe yields an
error and the nil policy list. -/
theorem castPolicies_error_iff_witness :
    (castPolicies sampleProbesNew sampleProducersNew badConfig).policies = .nil :=
  (castPolicies_error_iff sampleProbesNew sampleProducersNew badConfig).2 (by decide)

/-- C5. When `c` is the first unit entry, in traversal order (policies in
input order; within a policy the verify entries, then the produce entries),
whose constructor fails, `castPolicies` returns the error of that constructor
call, and the constructor calls it makes are those for the entries before `c`
followed by the one for `c`: none is made for a later entry. -/
theorem castPolicies_first_error (probesNew : RP → Pb × Option GoError)
    (producersNew : RQ → Pd × Option GoError) (ps : List (config.Policy RP RQ))
    (before after : List (UnitCall RP RQ)) (c : UnitCall RP RQ) (err : GoError)
    (hsplit : unitsOf ps = before ++ c :: after)
    (hok : ∀ u ∈ before, unitErr probesNew producersNew u = none)
    (hfail : unitErr probesNew producersNew c = some err) :
    (castPolicies probesNew producersNew ps).err = some err ∧
    (castPolicies probesNew producersNew ps).calls = before ++ [c] := by
  rw [castPolicies_eq, hsplit,
    firstFailure_split probesNew producersNew before after c err hok hfail]
  exact ⟨rfl, rfl⟩

/-- Scenario of C5: the unregistered probe of `p2` is the fourth entry gone
through; the entries after it, one of them also unregistered, are not. -/
theorem castPolicies_first_error_witness :
    (castPolicies sampleProbesNew sampleProducersNew badConfig).err
      = some ⟨"probes: unknown type"⟩ ∧
    (castPolicies sampleProbesNew sampleProducersNew badConfig).calls
      = [.probe "file", .producer "echo", .probe "file"] ++ [.probe "unknown"] :=
  castPolicies_first_error sampleProbesNew sampleProducersNew badConfig
    [.probe "file", .producer "echo", .probe "file"]
    [.producer "unknown", .producer "echo", .probe "file"] (.probe "unknown")
    ⟨"probes: unknown type"⟩ rfl (by decide) rfl

/-- C6. When every unit constructor succeeds on the input, `castPolicies`
returns no error and an allocated list with one compiled policy per raw
policy, in the same order: the raw policy's `Name`, the `probes.New` results
of its verify entries in order, and the `producers.New` results of its produce
entries in order. An empty verify or produce list so compiles to an empty
sequence. -/
theorem castPolicies_success (probesNew : RP → Pb × Option GoError)
    (producersNew : RQ → Pd × Option GoError) (ps : List (config.Policy RP RQ))
    (hok : ∀ p ∈ ps, (∀ raw ∈ p.Verify, (probesNew raw).2 = none) ∧
      (∀ raw ∈ p.Produce, (producersNew raw).2 = none)) :
    (castPolicies probesNew producersNew ps).err = none ∧
    (castPolicies probesNew producersNew ps).policies
      = .mk (ps.map (fun p =>
          { Name := p.Name,
            Verify := .mk (p.Verify.map (fun raw => (probesNew raw).1)),
            Produce := .mk (p.Produce.map (fun raw => (producersNew raw).1)) })) ∧
    (castPolicies probesNew producersNew ps).policies.toList.length = ps.length := by
  have hall : ∀ c ∈ unitsOf ps, unitErr probesNew producersNew c = none := by
    intro c hc
    by_contra hne
    obtain ⟨p, hp, ⟨raw, hraw, hbad⟩ | ⟨raw, hraw, hbad⟩⟩ :=
      (exists_unitErr_iff probesNew producersNew ps).1 ⟨c, hc, hne⟩
    · exact hbad ((hok p hp).1 raw hraw)
    · exact hbad ((hok p hp).2 raw hraw)
  rw [castPolicies_eq, (firstFailure_eq_none probesNew producersNew _).2 hall]
  refine ⟨rfl, rfl, ?_⟩
  simp [Slice.toList]

/-- Scenario of C6: two policies, one without verify entries and one without
produce entries. -/
theorem castPolicies_success_witness :
    (castPolicies sampleProbesNew sampleProducersNew goodConfig).err = none ∧
    (castPolicies sampleProbesNew sampleProducersNew goodConfig).policies
      = .mk [{ Name := "p1", Verify := .mk [], Produce := .mk ["producer:echo"] },
             { Name := "p2", Verify := .mk ["probe:file"], Produce := .mk [] }] := by
  have key := castPolicies_success sampleProbesNew sampleProducersNew goodConfig
    (by decide)
  exact ⟨key.1, key.2.1.trans (by decide)⟩

end Cast

end Serve
